import Mathlib

/-!
Verification of `net::DnsOverHttpsConfig`
(src/unnamed/part_000, Chromium `net/dns/dns_over_https_config.cc`).

The file under src/ contains the ConfigGroup logic only.  Its collaborators —
`DnsOverHttpsServerConfig` (the per-endpoint descriptor), `base::JSONReader`
and `base::JSONWriter` — live elsewhere in the repository and are not under
src/, so the development is parameterised over them: the descriptor enters as
an abstract type `D` together with the operation record `ServerConfigOps D`
(the five member functions the group code calls), and the JSON reader/writer
enter as function arguments `jr : String → Option JValue` /
`jw : JValue → String`.  Facts the proofs need about these externals (e.g.
"the reader fails on the empty string") are explicit hypotheses, and concrete
spec-modelled instances discharge them in the witnesses.
-/

namespace DoH

/-- JSON values as surfaced by `base::Value` (the shape `base::JSONReader`
produces and `base::JSONWriter` consumes).  A dictionary is a key/value list;
`FindList`-style lookups use the first binding of a key. -/
inductive JValue where
  | null
  | bool (b : Bool)
  | int (n : Int)
  | str (s : String)
  | list (xs : List JValue)
  | dict (kvs : List (String × JValue))

/-- Modelled from the spec: the interface of `DnsOverHttpsServerConfig`
(`net/dns/public/dns_over_https_server_config.cc`, not under src/).  These are
exactly the five members the group code in src/unnamed/part_000 calls:
the template constructor `FromString`, the structured constructor `FromValue`,
`IsSimple`, `server_template` and `ToValue`.  Descriptor equality is the
`DecidableEq D` instance. -/
structure ServerConfigOps (D : Type) where
  fromString : String → Option D
  fromValue : List (String × JValue) → Option D
  isSimple : D → Bool
  serverTemplate : D → String
  toValue : D → JValue

/-- `DnsOverHttpsConfig`: an ordered sequence of endpoint descriptors
(the `servers_` vector). -/
structure DnsOverHttpsConfig (D : Type) where
  servers : List D
deriving DecidableEq

/-- The six characters of `base::kWhitespaceASCII`
(TAB, LF, VT, FF, CR, SPACE). -/
def isWhitespaceASCII (c : Char) : Bool :=
  c = '\x09' || c = '\x0a' || c = '\x0b' || c = '\x0c' || c = '\x0d' || c = ' '

/-- Splitting on `base::kWhitespaceASCII` with `SPLIT_WANT_NONEMPTY`:
the maximal runs of non-whitespace characters, in order.  (`TRIM_WHITESPACE`
is a no-op here because pieces split on the full ASCII-whitespace set contain
no whitespace.)  A whitespace character is skipped; a non-whitespace
character either stands alone (end of input or whitespace next) or is
prepended to the run that starts at the next character. -/
def SplitGroupData : List Char → List (List Char)
  | [] => []
  | c :: cs =>
    if isWhitespaceASCII c then SplitGroupData cs
    else
      match cs with
      | [] => [[c]]
      | d :: _ =>
        if isWhitespaceASCII d then [c] :: SplitGroupData cs
        else
          match SplitGroupData cs with
          | [] => [[c]]
          | w :: ws => (c :: w) :: ws

/-- `SplitGroup` (src/unnamed/part_000 lines 25-29): templates in a group are
whitespace-separated; empty tokens are discarded. -/
def SplitGroup (group : String) : List String :=
  (SplitGroupData group.data).map String.mk

variable {D : Type}

/-- `ParseTemplates` (lines 31-39): each token is independently passed to
`DnsOverHttpsServerConfig::FromString`. -/
def ParseTemplates (ops : ServerConfigOps D) (templates : List String) :
    List (Option D) :=
  templates.map ops.fromString

/-- The JSON key `"servers"` (`kJsonKeyServers`). -/
def kJsonKeyServers : String := "servers"

/-- `base::Value::GetIfDict`: the dictionary contents when the value is a
dictionary, otherwise nothing. -/
def GetIfDict : JValue → Option (List (String × JValue))
  | JValue.dict kvs => some kvs
  | _ => none

/-- `base::Value::Dict::FindList`: the list under `key` when the key is
present and bound to a list, otherwise nothing. -/
def FindList (kvs : List (String × JValue)) (key : String) :
    Option (List JValue) :=
  match kvs.lookup key with
  | some (JValue.list xs) => some xs
  | _ => none

/-- The element loop of `FromValue` (lines 48-57): every element must be a
dictionary and must pass `DnsOverHttpsServerConfig::FromValue`; the first
failure aborts with nothing, otherwise the parsed servers are collected in
order. -/
def ParseServerList (ops : ServerConfigOps D) : List JValue → Option (List D)
  | [] => some []
  | elt :: rest =>
    match GetIfDict elt with
    | none => none
    | some d =>
      match ops.fromValue d with
      | none => none
      | some parsed => (ParseServerList ops rest).map (parsed :: ·)

/-- `FromValue` (lines 43-59): find the `"servers"` list, decode every
element, all-or-nothing. -/
def FromValue (ops : ServerConfigOps D) (value : List (String × JValue)) :
    Option (DnsOverHttpsConfig D) :=
  match FindList value kJsonKeyServers with
  | none => none
  | some servers_value =>
    (ParseServerList ops servers_value).map DnsOverHttpsConfig.mk

/-- `FromJson` (lines 61-66): run the external JSON reader; the result must
be a dictionary, which is handed to `FromValue`. -/
def FromJson (ops : ServerConfigOps D) (jr : String → Option JValue)
    (json : String) : Option (DnsOverHttpsConfig D) :=
  match jr json with
  | some (JValue.dict kvs) => FromValue ops kvs
  | _ => none

/-- The collection loop of `DnsOverHttpsConfig::FromTemplates` (lines 89-94):
all templates must have parsed for the group to be valid. -/
def CollectServers : List (Option D) → Option (List D)
  | [] => some []
  | none :: _ => none
  | some server :: rest => (CollectServers rest).map (server :: ·)

/-- `DnsOverHttpsConfig::FromTemplates` (lines 85-95). -/
def FromTemplates (ops : ServerConfigOps D) (server_templates : List String) :
    Option (DnsOverHttpsConfig D) :=
  (CollectServers (ParseTemplates ops server_templates)).map
    DnsOverHttpsConfig.mk

/-- The tail of `DnsOverHttpsConfig::FromString` (lines 108-112), reached when
the structured decode did not produce a non-empty group: tokenize, fail on
zero tokens (`doh_config` must contain at least one server), otherwise
delegate to `FromTemplates`. -/
def FromStringTemplates (ops : ServerConfigOps D) (doh_config : String) :
    Option (DnsOverHttpsConfig D) :=
  if (SplitGroup doh_config).isEmpty then none
  else FromTemplates ops (SplitGroup doh_config)

/-- `DnsOverHttpsConfig::FromString` (lines 104-113): return the structured
decode when it succeeds with a non-empty server list, otherwise fall through
to the template path. -/
def FromString (ops : ServerConfigOps D) (jr : String → Option JValue)
    (doh_config : String) : Option (DnsOverHttpsConfig D) :=
  match FromJson ops jr doh_config with
  | some parsed =>
    if !parsed.servers.isEmpty then some parsed
    else FromStringTemplates ops doh_config
  | none => FromStringTemplates ops doh_config

/-- `DnsOverHttpsConfig::FromStringLax` (lines 116-127): return any
successful structured decode as-is; otherwise parse the tokens independently
and keep only the ones that parsed. -/
def FromStringLax (ops : ServerConfigOps D) (jr : String → Option JValue)
    (doh_config : String) : DnsOverHttpsConfig D :=
  match FromJson ops jr doh_config with
  | some parsed => parsed
  | none =>
    DnsOverHttpsConfig.mk
      ((ParseTemplates ops (SplitGroup doh_config)).filterMap id)

/-- `DnsOverHttpsConfig::operator==` (lines 129-131): elementwise equality of
the two server vectors. -/
def EqConfig [DecidableEq D] (a b : DnsOverHttpsConfig D) : Bool :=
  decide (a.servers = b.servers)

/-- `base::JoinString(parts, sep)` on character data: the parts concatenated
with the separator between consecutive parts. -/
def JoinData (sep : List Char) : List (List Char) → List Char
  | [] => []
  | [x] => x
  | x :: xs => x ++ sep ++ JoinData sep xs

/-- `base::JoinString`. -/
def JoinString (parts : List String) (sep : String) : String :=
  String.mk (JoinData sep.data (parts.map String.data))

/-- `base::TrimWhitespaceASCII(json, base::TRIM_TRAILING)`: drop trailing
ASCII whitespace. -/
def TrimTrailingWhitespaceASCII (s : String) : String :=
  String.mk ((s.data.reverse.dropWhile isWhitespaceASCII).reverse)

/-- `DnsOverHttpsConfig::ToValue` (lines 150-159): the dictionary binding
`"servers"` to the list of the descriptors' structured representations. -/
def ToValue (ops : ServerConfigOps D) (c : DnsOverHttpsConfig D) :
    List (String × JValue) :=
  [(kJsonKeyServers, JValue.list (c.servers.map ops.toValue))]

/-- `DnsOverHttpsConfig::ToString` (lines 133-148): newline-joined templates
when every server `IsSimple`, otherwise the pretty-printed `ToValue`
dictionary with trailing whitespace trimmed.  The external writer
(`base::JSONWriter::WriteWithOptions`, whose success the source `CHECK`s) is
the parameter `jw`. -/
def ToString (ops : ServerConfigOps D) (jw : JValue → String)
    (c : DnsOverHttpsConfig D) : String :=
  if c.servers.all ops.isSimple then
    JoinString (c.servers.map ops.serverTemplate) "\x0a"
  else
    TrimTrailingWhitespaceASCII (jw (JValue.dict (ToValue ops c)))

/-- Modelled from the spec: a minimal concrete descriptor satisfying the
EndpointDescriptor contract of §3/§4.1 (`DnsOverHttpsServerConfig` itself is
not under src/).  It carries the template string and one piece of extra
structure (`useGet`, from the §6 example); it is used to instantiate the
abstract theorems in the witnesses. -/
structure SpecServerConfig where
  template : String
  useGet : Bool
deriving DecidableEq

/-- Modelled from the spec: template validity for the concrete model — a
well-formed endpoint template is a non-empty `https://` URI containing no
ASCII whitespace (§3: "fails with InvalidTemplate if the string is not a
well-formed endpoint template"; §6: whitespace separates templates, so a
template contains none). -/
def specValidTemplate (s : String) : Bool :=
  List.isPrefixOf "https://".data s.data &&
    s.data.all (fun c => !isWhitespaceASCII c)

/-- Modelled from the spec: the operation record of the concrete model
descriptor (template constructor, structured constructor over
`\x7b"template": ..., "useGet": ...\x7d` records, `IsSimple` true iff no
extra structure, template accessor, structured representation). -/
def specOps : ServerConfigOps SpecServerConfig where
  fromString := fun s =>
    if specValidTemplate s then some ⟨s, false⟩ else none
  fromValue := fun kvs =>
    match kvs.lookup "template" with
    | some (JValue.str s) =>
      if specValidTemplate s then
        match kvs.lookup "useGet" with
        | some (JValue.bool b) => some ⟨s, b⟩
        | _ => some ⟨s, false⟩
      else none
    | _ => none
  isSimple := fun d => !d.useGet
  serverTemplate := fun d => d.template
  toValue := fun d =>
    JValue.dict ([("template", JValue.str d.template)] ++
      (if d.useGet then [("useGet", JValue.bool true)] else []))

/-- Model reader that fails on every input (the behaviour of
`base::JSONReader::Read` on any text that is not valid JSON). -/
def jrAlwaysNone : String → Option JValue := fun _ => none

theorem splitGroupData_ws {c : Char} (hc : isWhitespaceASCII c = true)
    (cs : List Char) : SplitGroupData (c :: cs) = SplitGroupData cs := by
  conv_lhs => rw [SplitGroupData.eq_def]
  simp [hc]

theorem splitGroupData_one {a : Char} (ha : isWhitespaceASCII a = false) :
    SplitGroupData [a] = [[a]] := by
  conv_lhs => rw [SplitGroupData.eq_def]
  simp [ha]

theorem splitGroupData_cons_sep {a d : Char}
    (ha : isWhitespaceASCII a = false) (hd : isWhitespaceASCII d = true)
    (cs : List Char) :
    SplitGroupData (a :: d :: cs) = [a] :: SplitGroupData cs := by
  conv_lhs => rw [SplitGroupData.eq_def]
  simp [ha, hd, splitGroupData_ws hd]

theorem splitGroupData_cons_cons {a b : Char} {bs : List Char}
    (ha : isWhitespaceASCII a = false) (hb : isWhitespaceASCII b = false) :
    SplitGroupData (a :: b :: bs) =
      match SplitGroupData (b :: bs) with
      | [] => [[a]]
      | w :: ws => (a :: w) :: ws := by
  conv_lhs => rw [SplitGroupData.eq_def]
  simp [ha, hb]

theorem splitGroupData_eq_single {l : List Char} (hne : l ≠ [])
    (h : ∀ c ∈ l, isWhitespaceASCII c = false) : SplitGroupData l = [l] := by
  induction l with
  | nil => exact absurd rfl hne
  | cons a as ih =>
    have ha : isWhitespaceASCII a = false := h a (List.mem_cons_self a as)
    cases as with
    | nil => exact splitGroupData_one ha
    | cons b bs =>
      have hb : isWhitespaceASCII b = false := h b (by simp)
      have hrec := ih (by simp) (fun c hc => h c (List.mem_cons_of_mem a hc))
      rw [splitGroupData_cons_cons ha hb, hrec]

theorem splitGroupData_append {w : List Char} (hne : w ≠ [])
    (hw : ∀ c ∈ w, isWhitespaceASCII c = false) {sep : Char}
    (hsep : isWhitespaceASCII sep = true) (rest : List Char) :
    SplitGroupData (w ++ sep :: rest) = w :: SplitGroupData rest := by
  induction w with
  | nil => exact absurd rfl hne
  | cons a as ih =>
    have ha : isWhitespaceASCII a = false := hw a (by simp)
    cases as with
    | nil =>
      simp only [List.cons_append, List.nil_append]
      exact splitGroupData_cons_sep ha hsep rest
    | cons b bs =>
      have hb : isWhitespaceASCII b = false := hw b (by simp)
      have hrec := ih (by simp) (fun c hc => hw c (List.mem_cons_of_mem a hc))
      simp only [List.cons_append] at hrec ⊢
      rw [splitGroupData_cons_cons ha hb, hrec]

theorem splitGroupData_join {sep : Char} (hsep : isWhitespaceASCII sep = true)
    {ds : List (List Char)} (hne : ds ≠ [])
    (h : ∀ d ∈ ds, d ≠ [] ∧ ∀ c ∈ d, isWhitespaceASCII c = false) :
    SplitGroupData (JoinData [sep] ds) = ds := by
  induction ds with
  | nil => exact absurd rfl hne
  | cons d rest ih =>
    cases rest with
    | nil =>
      have hd := h d (by simp)
      simp [JoinData, splitGroupData_eq_single hd.1 hd.2]
    | cons d2 rest2 =>
      have hd := h d (by simp)
      have hrec := ih (by simp) (fun x hx => h x (List.mem_cons_of_mem d hx))
      calc SplitGroupData (JoinData [sep] (d :: d2 :: rest2))
          = SplitGroupData (d ++ sep :: JoinData [sep] (d2 :: rest2)) := by
            simp [JoinData]
        _ = d :: SplitGroupData (JoinData [sep] (d2 :: rest2)) :=
            splitGroupData_append hd.1 hd.2 hsep _
        _ = d :: d2 :: rest2 := by rw [hrec]

theorem collectServers_map_some (ds : List D) :
    CollectServers (ds.map some) = some ds := by
  induction ds with
  | nil => rfl
  | cons d rest ih => simp [CollectServers, ih]

theorem collectServers_eq_none {xs : List (Option D)} (h : none ∈ xs) :
    CollectServers xs = none := by
  induction xs with
  | nil => simp at h
  | cons x rest ih =>
    cases x with
    | none => rfl
    | some d =>
      have hmem : (none : Option D) ∈ rest := by
        rcases List.mem_cons.mp h with hx | hx
        · exact absurd hx.symm (by simp)
        · exact hx
      simp [CollectServers, ih hmem]

theorem collectServers_of_isSome {xs : List (Option D)}
    (h : ∀ x ∈ xs, x.isSome) :
    CollectServers xs = some (xs.filterMap id) := by
  induction xs with
  | nil => rfl
  | cons x rest ih =>
    cases x with
    | none => simpa using h none (by simp)
    | some d =>
      have hrec := ih (fun y hy => h y (List.mem_cons_of_mem _ hy))
      simp [CollectServers, hrec]

theorem parseServerList_eq_none {ops : ServerConfigOps D} {xs : List JValue}
    {v : JValue} (hv : v ∈ xs)
    (hbad : GetIfDict v = none ∨
      ∃ m, GetIfDict v = some m ∧ ops.fromValue m = none) :
    ParseServerList ops xs = none := by
  induction xs with
  | nil => simp at hv
  | cons x rest ih =>
    rcases List.mem_cons.mp hv with rfl | hmem
    · rcases hbad with hb | ⟨m, hm, hfm⟩
      · simp [ParseServerList, hb]
      · simp [ParseServerList, hm, hfm]
    · have hrest := ih hmem
      simp only [ParseServerList]
      cases GetIfDict x with
      | none => rfl
      | some m =>
        cases him : ops.fromValue m with
        | none => simp [him]
        | some parsed => simp [him, hrest]

theorem collectServers_length {xs : List (Option D)} {ds : List D}
    (h : CollectServers xs = some ds) : ds.length = xs.length := by
  induction xs generalizing ds with
  | nil =>
    simp only [CollectServers, Option.some.injEq] at h
    subst h
    rfl
  | cons x rest ih =>
    cases x with
    | none => simp [CollectServers] at h
    | some d =>
      simp only [CollectServers] at h
      rcases Option.map_eq_some'.mp h with ⟨ds', hds', hcons⟩
      subst hcons
      simp [ih hds']

theorem fromTemplates_eq_none_of_fail {ops : ServerConfigOps D}
    {ts : List String} {t : String} (ht : t ∈ ts)
    (hf : ops.fromString t = none) : FromTemplates ops ts = none := by
  unfold FromTemplates ParseTemplates
  rw [collectServers_eq_none (List.mem_map.mpr ⟨t, ht, hf⟩)]
  rfl

theorem fromStringTemplates_eq_none_of_all_fail {ops : ServerConfigOps D}
    {s : String} (h : ∀ t ∈ SplitGroup s, ops.fromString t = none) :
    FromStringTemplates ops s = none := by
  unfold FromStringTemplates
  cases hts : SplitGroup s with
  | nil => rfl
  | cons t ts' =>
    have hmem : t ∈ SplitGroup s := hts ▸ List.mem_cons_self t ts'
    simp [fromTemplates_eq_none_of_fail (List.mem_cons_self t ts') (h t hmem)]

theorem fromStringTemplates_some_ne_nil {ops : ServerConfigOps D} {s : String}
    {c : DnsOverHttpsConfig D} (h : FromStringTemplates ops s = some c) :
    c.servers ≠ [] := by
  unfold FromStringTemplates at h
  by_cases hsp : (SplitGroup s).isEmpty
  · simp [hsp] at h
  · simp only [hsp, if_false, Bool.false_eq_true] at h
    unfold FromTemplates at h
    rcases Option.map_eq_some'.mp h with ⟨ds, hds, hc⟩
    subst hc
    have hlen := collectServers_length hds
    simp only [ParseTemplates, List.length_map] at hlen
    intro hnil
    have hds0 : ds = [] := hnil
    subst hds0
    simp only [List.length_nil] at hlen
    have hleniff : (SplitGroup s).isEmpty = true := by
      rw [List.isEmpty_iff_length_eq_zero]
      omega
    exact hsp hleniff

/-- C10: `FromTemplates` applied to the empty template list succeeds and
returns the empty group — emptiness rejection happens only in `FromString`'s
tokenization step, not in `FromTemplates` itself. -/
theorem fromTemplates_nil_eq_some_empty (ops : ServerConfigOps D) :
    FromTemplates ops [] = some ⟨[]⟩ := rfl

/-- C3: a strictly parsed group is never empty — whenever `FromString`
succeeds, the returned group has at least one descriptor. -/
theorem fromString_some_ne_nil (ops : ServerConfigOps D)
    (jr : String → Option JValue) (s : String) (c : DnsOverHttpsConfig D)
    (h : FromString ops jr s = some c) : c.servers ≠ [] := by
  unfold FromString at h
  cases hj : FromJson ops jr s with
  | none =>
    rw [hj] at h
    exact fromStringTemplates_some_ne_nil h
  | some parsed =>
    rw [hj] at h
    by_cases hne : parsed.servers.isEmpty
    · simp only [hne, Bool.not_true, if_false, Bool.false_eq_true] at h
      exact fromStringTemplates_some_ne_nil h
    · simp only [hne, Bool.not_false, if_true, Option.some.injEq] at h
      subst h
      simpa using hne

theorem fromString_some_ne_nil_witness :
    (⟨[⟨"https://a/q", false⟩]⟩ :
        DnsOverHttpsConfig SpecServerConfig).servers ≠ [] :=
  fromString_some_ne_nil specOps jrAlwaysNone "https://a/q" _ (by decide)

/-- C9: strict parsing of the empty string fails (the reader rejects `""` and
tokenization yields nothing), and in general strict parsing fails whenever
neither syntax produces a usable entry; lenient parsing of the empty string
returns the empty group. -/
theorem fromString_empty_configuration (ops : ServerConfigOps D)
    (jr : String → Option JValue) :
    (jr "" = none →
      FromString ops jr "" = none ∧ FromStringLax ops jr "" = ⟨[]⟩)
  ∧ (∀ s : String,
      (FromJson ops jr s = none ∨
        ∃ c, FromJson ops jr s = some c ∧ c.servers = []) →
      (∀ t ∈ SplitGroup s, ops.fromString t = none) →
      FromString ops jr s = none) := by
  constructor
  · intro hjr
    have hj : FromJson ops jr "" = none := by
      unfold FromJson
      rw [hjr]
    constructor
    · unfold FromString
      rw [hj]
      rfl
    · unfold FromStringLax
      rw [hj]
      rfl
  · intro s hjson htok
    have htail := fromStringTemplates_eq_none_of_all_fail htok
    unfold FromString
    rcases hjson with hj | ⟨c, hj, hc⟩
    · rw [hj]
      exact htail
    · rw [hj]
      have hemp : c.servers.isEmpty = true := by simp [hc]
      simp only [hemp, Bool.not_true, Bool.false_eq_true, if_false]
      exact htail

theorem fromString_empty_configuration_witness :
    FromString specOps jrAlwaysNone "" = none ∧
    FromStringLax specOps jrAlwaysNone "" = ⟨[]⟩ ∧
    FromString specOps jrAlwaysNone "bad tok" = none := by
  have h := fromString_empty_configuration specOps jrAlwaysNone
  exact ⟨(h.1 rfl).1, (h.1 rfl).2, h.2 "bad tok" (Or.inl rfl) (by decide)⟩

theorem fromString_eq_templates_of_json_fallthrough {ops : ServerConfigOps D}
    {jr : String → Option JValue} {s : String}
    (hjson : FromJson ops jr s = none ∨
      ∃ c, FromJson ops jr s = some c ∧ c.servers = []) :
    FromString ops jr s = FromStringTemplates ops s := by
  unfold FromString
  rcases hjson with hj | ⟨c, hj, hc⟩
  · rw [hj]
  · rw [hj]
    have hemp : c.servers.isEmpty = true := by simp [hc]
    simp only [hemp, Bool.not_true, Bool.false_eq_true, if_false]

theorem fromStringTemplates_eq_none_of_one_fail {ops : ServerConfigOps D}
    {s : String} {t : String} (ht : t ∈ SplitGroup s)
    (hf : ops.fromString t = none) : FromStringTemplates ops s = none := by
  unfold FromStringTemplates
  have hne : SplitGroup s ≠ [] := fun h0 => by simp [h0] at ht
  have hemp : (SplitGroup s).isEmpty = false := by simp [hne]
  simp only [hemp, Bool.false_eq_true, if_false]
  exact fromTemplates_eq_none_of_fail ht hf

theorem fromStringTemplates_all_ok {ops : ServerConfigOps D} {s : String}
    (hne : SplitGroup s ≠ [])
    (h : ∀ t ∈ SplitGroup s, (ops.fromString t).isSome) :
    FromStringTemplates ops s =
      some ⟨(SplitGroup s).filterMap ops.fromString⟩ := by
  unfold FromStringTemplates
  have hemp : (SplitGroup s).isEmpty = false := by simp [hne]
  simp only [hemp, Bool.false_eq_true, if_false]
  unfold FromTemplates ParseTemplates
  rw [collectServers_of_isSome
    (fun x hx => by
      rcases List.mem_map.mp hx with ⟨t, ht, rfl⟩
      exact h t ht)]
  simp [List.filterMap_map]

/-- C1: strict parsing attempts the structured decode first and returns it
iff it yields at least one descriptor; otherwise it tokenizes on ASCII
whitespace (discarding empty tokens), fails on zero tokens, fails if any
token fails template validation, and succeeds with all parsed tokens
otherwise. -/
theorem fromString_strict_characterization (ops : ServerConfigOps D)
    (jr : String → Option JValue) (s : String) :
    (∀ c, FromJson ops jr s = some c → c.servers ≠ [] →
      FromString ops jr s = some c)
  ∧ ((FromJson ops jr s = none ∨
      ∃ c, FromJson ops jr s = some c ∧ c.servers = []) →
      (SplitGroup s = [] → FromString ops jr s = none)
    ∧ (∀ t ∈ SplitGroup s, ops.fromString t = none →
        FromString ops jr s = none)
    ∧ (SplitGroup s ≠ [] → (∀ t ∈ SplitGroup s, (ops.fromString t).isSome) →
        FromString ops jr s =
          some ⟨(SplitGroup s).filterMap ops.fromString⟩)) := by
  constructor
  · intro c hj hc
    unfold FromString
    rw [hj]
    have hemp : c.servers.isEmpty = false := by simp [hc]
    simp [hemp]
  · intro hjson
    have hft := fromString_eq_templates_of_json_fallthrough hjson
    refine ⟨fun hsp => ?_, fun t ht hf => ?_, fun hne hok => ?_⟩
    · rw [hft]
      unfold FromStringTemplates
      simp [hsp]
    · rw [hft]
      exact fromStringTemplates_eq_none_of_one_fail ht hf
    · rw [hft]
      exact fromStringTemplates_all_ok hne hok

theorem fromString_strict_characterization_witness :
    FromString specOps jrAlwaysNone "  https://a/q   https://b/q  " =
      some ⟨[⟨"https://a/q", false⟩, ⟨"https://b/q", false⟩]⟩ := by
  have h := fromString_strict_characterization specOps jrAlwaysNone
    "  https://a/q   https://b/q  "
  have h3 := (h.2 (Or.inl rfl)).2.2 (by decide) (by decide)
  exact h3.trans (by decide)

/-- C2: lenient parsing is total (its result type is a group, not an
option); a successful structured decode — even an empty one — is returned
as-is with no fallback, and otherwise every whitespace token is parsed
independently with failing tokens silently dropped. -/
theorem fromStringLax_characterization (ops : ServerConfigOps D)
    (jr : String → Option JValue) (s : String) :
    (∀ c, FromJson ops jr s = some c → FromStringLax ops jr s = c)
  ∧ (FromJson ops jr s = none →
      FromStringLax ops jr s = ⟨(SplitGroup s).filterMap ops.fromString⟩) := by
  constructor
  · intro c hj
    unfold FromStringLax
    rw [hj]
  · intro hj
    unfold FromStringLax
    rw [hj]
    simp [ParseTemplates, List.filterMap_map]

theorem fromStringLax_characterization_witness :
    FromStringLax specOps jrAlwaysNone "https://a/q bad" =
      ⟨[⟨"https://a/q", false⟩]⟩ := by
  have h := fromStringLax_characterization specOps jrAlwaysNone
    "https://a/q bad"
  exact (h.2 rfl).trans (by decide)

theorem fromJson_eq_fromValue {ops : ServerConfigOps D}
    {jr : String → Option JValue} {s : String}
    {kvs : List (String × JValue)} (h : jr s = some (JValue.dict kvs)) :
    FromJson ops jr s = FromValue ops kvs := by
  unfold FromJson
  rw [h]

/-- C4: structured decoding is all-or-nothing for both entry points (both
call the same `FromJson`): it fails when the text is not JSON, when the
top-level value is not an object, when the `"servers"` key is missing or not
bound to an array, and when any array element is not a record or fails the
descriptor's structured constructor — no subset of valid elements is ever
accepted. -/
theorem fromJson_all_or_nothing (ops : ServerConfigOps D)
    (jr : String → Option JValue) (s : String) :
    (jr s = none → FromJson ops jr s = none)
  ∧ (∀ v, jr s = some v → GetIfDict v = none → FromJson ops jr s = none)
  ∧ (∀ kvs, jr s = some (JValue.dict kvs) →
      FindList kvs kJsonKeyServers = none → FromJson ops jr s = none)
  ∧ (∀ kvs v, jr s = some (JValue.dict kvs) →
      kvs.lookup kJsonKeyServers = some v → (∀ xs, v ≠ JValue.list xs) →
      FromJson ops jr s = none)
  ∧ (∀ kvs xs v, jr s = some (JValue.dict kvs) →
      FindList kvs kJsonKeyServers = some xs → v ∈ xs →
      (GetIfDict v = none ∨
        ∃ m, GetIfDict v = some m ∧ ops.fromValue m = none) →
      FromJson ops jr s = none) := by
  refine ⟨fun hn => ?_, fun v hv hgd => ?_, fun kvs hv hfl => ?_,
    fun kvs v hv hlk hnl => ?_, fun kvs xs v hv hfl hmem hbad => ?_⟩
  · unfold FromJson
    rw [hn]
  · unfold FromJson
    rw [hv]
    cases v with
    | dict kvs => simp [GetIfDict] at hgd
    | null => rfl
    | bool b => rfl
    | int n => rfl
    | str t => rfl
    | list xs => rfl
  · rw [fromJson_eq_fromValue hv]
    unfold FromValue
    rw [hfl]
  · rw [fromJson_eq_fromValue hv]
    unfold FromValue
    have hfl : FindList kvs kJsonKeyServers = none := by
      unfold FindList
      rw [hlk]
      cases v with
      | list xs => exact absurd rfl (hnl xs)
      | null => rfl
      | bool b => rfl
      | int n => rfl
      | str t => rfl
      | dict kvs2 => rfl
    rw [hfl]
  · rw [fromJson_eq_fromValue hv]
    unfold FromValue
    rw [hfl]
    simp [parseServerList_eq_none hmem hbad]

/-- Model reader producing a structured document whose `"servers"` array
holds two valid records and one element that is not a record. -/
def jrPartlyBad : String → Option JValue := fun s =>
  if s = "doc" then
    some (JValue.dict [("servers", JValue.list
      [JValue.dict [("template", JValue.str "https://a/q")],
       JValue.dict [("template", JValue.str "https://b/q")],
       JValue.str "oops"])])
  else none

theorem fromJson_all_or_nothing_witness :
    FromJson specOps jrPartlyBad "doc" = none := by
  have h := fromJson_all_or_nothing specOps jrPartlyBad "doc"
  exact h.2.2.2.2 _ _ (JValue.str "oops") rfl rfl (by simp [jrPartlyBad])
    (Or.inl rfl)

/-- Model reader for the exact document `\x7b"servers": []\x7d`: it reads to
the dictionary with an empty `"servers"` array, as `base::JSONReader` does. -/
def jrEmptyServersDoc : String → Option JValue := fun s =>
  if s = "\x7b\"servers\": []\x7d" then
    some (JValue.dict [("servers", JValue.list [])])
  else none

/-- C7: on the exact text `\x7b"servers": []\x7d` — whose structured decode
succeeds with zero servers and whose two whitespace tokens are not valid
templates — strict parsing fails while lenient parsing returns the empty
group immediately. -/
theorem fromString_empty_servers_asymmetry (ops : ServerConfigOps D)
    (jr : String → Option JValue)
    (hjr : jr "\x7b\"servers\": []\x7d" =
      some (JValue.dict [("servers", JValue.list [])]))
    (h1 : ops.fromString "\x7b\"servers\":" = none)
    (h2 : ops.fromString "[]\x7d" = none) :
    FromString ops jr "\x7b\"servers\": []\x7d" = none ∧
    FromStringLax ops jr "\x7b\"servers\": []\x7d" = ⟨[]⟩ := by
  have hj : FromJson ops jr "\x7b\"servers\": []\x7d" = some ⟨[]⟩ := by
    rw [fromJson_eq_fromValue hjr]
    rfl
  constructor
  · rw [fromString_eq_templates_of_json_fallthrough (Or.inr ⟨⟨[]⟩, hj, rfl⟩)]
    have hall : ∀ t ∈ SplitGroup "\x7b\"servers\": []\x7d",
        ops.fromString t = none := by
      have hsplit : SplitGroup "\x7b\"servers\": []\x7d" =
          ["\x7b\"servers\":", "[]\x7d"] := by decide
      rw [hsplit]
      intro t ht
      rcases List.mem_cons.mp ht with rfl | ht2
      · exact h1
      · rcases List.mem_cons.mp ht2 with rfl | ht3
        · exact h2
        · simp at ht3
    exact fromStringTemplates_eq_none_of_all_fail hall
  · unfold FromStringLax
    rw [hj]

theorem fromString_empty_servers_asymmetry_witness :
    FromString specOps jrEmptyServersDoc "\x7b\"servers\": []\x7d" = none ∧
    FromStringLax specOps jrEmptyServersDoc "\x7b\"servers\": []\x7d" =
      ⟨[]⟩ :=
  fromString_empty_servers_asymmetry specOps jrEmptyServersDoc rfl
    (by decide) (by decide)

theorem fromTemplates_pair {ops : ServerConfigOps D} {a b : String}
    {da db : D} (ha : ops.fromString a = some da)
    (hb : ops.fromString b = some db) :
    FromTemplates ops [a, b] = some ⟨[da, db]⟩ := by
  unfold FromTemplates ParseTemplates
  simp [ha, hb, CollectServers]

theorem splitGroup_pair {a b : String} (hna : a.data ≠ []) (hnb : b.data ≠ [])
    (hwa : ∀ c ∈ a.data, isWhitespaceASCII c = false)
    (hwb : ∀ c ∈ b.data, isWhitespaceASCII c = false) :
    SplitGroup (a ++ " " ++ b) = [a, b] := by
  unfold SplitGroup
  have hdata : (a ++ " " ++ b).data = a.data ++ ' ' :: b.data := by
    rw [String.data_append, String.data_append, List.append_assoc]
    rfl
  rw [hdata, splitGroupData_append hna hwa (by decide) b.data,
    splitGroupData_eq_single hnb hwb]
  rfl

/-- C8: group equality is entrywise, order-sensitive sequence equality over
descriptor equality; hence for distinct valid (non-empty, whitespace-free)
templates `a` and `b` that the reader does not decode as JSON, strict parses
of `a ++ " " ++ b` and `b ++ " " ++ a` are the two-element groups in opposite
orders, and those groups are unequal. -/
theorem config_eq_order_sensitive [DecidableEq D] (ops : ServerConfigOps D)
    (jr : String → Option JValue) :
    (∀ x y : DnsOverHttpsConfig D, EqConfig x y = true ↔ x.servers = y.servers)
  ∧ (∀ x y : D, x ≠ y → EqConfig ⟨[x, y]⟩ ⟨[y, x]⟩ = false)
  ∧ (∀ (a b : String) (da db : D),
      ops.fromString a = some da → ops.fromString b = some db → da ≠ db →
      a.data ≠ [] → b.data ≠ [] →
      (∀ c ∈ a.data, isWhitespaceASCII c = false) →
      (∀ c ∈ b.data, isWhitespaceASCII c = false) →
      FromJson ops jr (a ++ " " ++ b) = none →
      FromJson ops jr (b ++ " " ++ a) = none →
      FromString ops jr (a ++ " " ++ b) = some ⟨[da, db]⟩ ∧
      FromString ops jr (b ++ " " ++ a) = some ⟨[db, da]⟩ ∧
      EqConfig (⟨[da, db]⟩ : DnsOverHttpsConfig D) ⟨[db, da]⟩ = false) := by
  have hpairne : ∀ x y : D, x ≠ y →
      EqConfig (⟨[x, y]⟩ : DnsOverHttpsConfig D) ⟨[y, x]⟩ = false := by
    intro x y hxy
    have hlist : ([x, y] : List D) ≠ [y, x] := by
      intro h
      injection h with h1 h2
      exact hxy h1
    simpa [EqConfig] using hlist
  refine ⟨fun x y => by simp [EqConfig], hpairne, ?_⟩
  intro a b da db ha hb hd hna hnb hwa hwb hja hjb
  have hparse : ∀ (x y : String) (dx dy : D),
      ops.fromString x = some dx → ops.fromString y = some dy →
      x.data ≠ [] → y.data ≠ [] →
      (∀ c ∈ x.data, isWhitespaceASCII c = false) →
      (∀ c ∈ y.data, isWhitespaceASCII c = false) →
      FromJson ops jr (x ++ " " ++ y) = none →
      FromString ops jr (x ++ " " ++ y) = some ⟨[dx, dy]⟩ := by
    intro x y dx dy hx hy hnx hny hwx hwy hj
    rw [fromString_eq_templates_of_json_fallthrough (Or.inl hj)]
    unfold FromStringTemplates
    rw [splitGroup_pair hnx hny hwx hwy]
    simpa using fromTemplates_pair hx hy
  exact ⟨hparse a b da db ha hb hna hnb hwa hwb hja,
    hparse b a db da hb ha hnb hna hwb hwa hjb, hpairne da db hd⟩

theorem config_eq_order_sensitive_witness :
    FromString specOps jrAlwaysNone ("https://a/q" ++ " " ++ "https://b/q") =
      some ⟨[⟨"https://a/q", false⟩, ⟨"https://b/q", false⟩]⟩ ∧
    FromString specOps jrAlwaysNone ("https://b/q" ++ " " ++ "https://a/q") =
      some ⟨[⟨"https://b/q", false⟩, ⟨"https://a/q", false⟩]⟩ ∧
    EqConfig (⟨[⟨"https://a/q", false⟩, ⟨"https://b/q", false⟩]⟩ :
        DnsOverHttpsConfig SpecServerConfig)
      ⟨[⟨"https://b/q", false⟩, ⟨"https://a/q", false⟩]⟩ = false :=
  (config_eq_order_sensitive specOps jrAlwaysNone).2.2
    "https://a/q" "https://b/q" ⟨"https://a/q", false⟩ ⟨"https://b/q", false⟩
    (by decide) (by decide) (by decide) (by decide) (by decide) (by decide)
    (by decide) rfl rfl

/-- C5: `ToString` renders the newline-joined template strings iff every
descriptor satisfies `IsSimple` (here as the two branch equations, which
together determine the format choice); in the structured branch, whenever
the external reader inverts the external pretty-printer on the rendered
document, parsing the rendered text yields exactly the `ToValue`
dictionary. -/
theorem toString_format_selection (ops : ServerConfigOps D)
    (jw : JValue → String) (jr : String → Option JValue)
    (c : DnsOverHttpsConfig D) :
    (c.servers.all ops.isSimple = true →
      ToString ops jw c =
        JoinString (c.servers.map ops.serverTemplate) "\x0a")
  ∧ (c.servers.all ops.isSimple = false →
      ToString ops jw c =
        TrimTrailingWhitespaceASCII (jw (JValue.dict (ToValue ops c)))
    ∧ (jr (TrimTrailingWhitespaceASCII (jw (JValue.dict (ToValue ops c)))) =
        some (JValue.dict (ToValue ops c)) →
       jr (ToString ops jw c) = some (JValue.dict (ToValue ops c)))) := by
  constructor
  · intro hall
    unfold ToString
    simp [hall]
  · intro hall
    have hts : ToString ops jw c =
        TrimTrailingWhitespaceASCII (jw (JValue.dict (ToValue ops c))) := by
      unfold ToString
      simp [hall]
    exact ⟨hts, fun hrd => by rw [hts]; exact hrd⟩

/-- Model config with one non-simple descriptor (extra structure beyond its
template). -/
def cNotSimple : DnsOverHttpsConfig SpecServerConfig :=
  ⟨[⟨"https://a/q", true⟩]⟩

/-- Model pretty-printer producing the fixed document `"J"`. -/
def jwConstJ : JValue → String := fun _ => "J"

/-- Model reader inverting `jwConstJ` on `cNotSimple`'s rendering. -/
def jrReadsJ : String → Option JValue := fun s =>
  if s = "J" then some (JValue.dict (ToValue specOps cNotSimple)) else none

theorem toString_format_selection_witness :
    jrReadsJ (ToString specOps jwConstJ cNotSimple) =
      some (JValue.dict (ToValue specOps cNotSimple)) ∧
    ToString specOps jwConstJ ⟨[⟨"https://a/q", false⟩]⟩ = "https://a/q" := by
  constructor
  · have h := toString_format_selection specOps jwConstJ jrReadsJ cNotSimple
    exact (h.2 (by decide)).2 rfl
  · have h := toString_format_selection specOps jwConstJ jrReadsJ
      ⟨[⟨"https://a/q", false⟩]⟩
    exact (h.1 (by decide)).trans (by decide)

/-- C6 counterexample: the empty group satisfies "every entry is simple"
vacuously, renders to the empty string, and strict parsing of that rendering
fails rather than returning the group. -/
theorem roundTrip_simple_empty_counterexample :
    FromString specOps jrAlwaysNone
      (ToString specOps jwConstJ (⟨[]⟩ : DnsOverHttpsConfig SpecServerConfig))
      = none := by
  decide

theorem splitGroup_joinString {temps : List String} (hne : temps ≠ [])
    (h1 : ∀ t ∈ temps, t.data ≠ [])
    (h2 : ∀ t ∈ temps, ∀ c ∈ t.data, isWhitespaceASCII c = false) :
    SplitGroup (JoinString temps "\x0a") = temps := by
  unfold SplitGroup JoinString
  have hmapne : temps.map String.data ≠ [] := by
    simpa using hne
  have hds : SplitGroupData (JoinData ['\x0a'] (temps.map String.data)) =
      temps.map String.data := by
    refine splitGroupData_join (by decide) hmapne ?_
    intro d hd
    rcases List.mem_map.mp hd with ⟨t, ht, rfl⟩
    exact ⟨h1 t ht, h2 t ht⟩
  show (SplitGroupData (JoinData ['\x0a'] (temps.map String.data))).map
      String.mk = temps
  rw [hds, List.map_map]
  have hid : ∀ t ∈ temps, (String.mk ∘ String.data) t = id t :=
    fun t _ => rfl
  rw [List.map_congr_left hid, List.map_id]

/-- C6 (amended): for any NON-EMPTY group whose entries are all simple and
satisfy the descriptor contract (the template string reconstructs the
descriptor, is non-empty and whitespace-free) and whose rendering the
external reader does not decode, strict parsing of `ToString` returns the
group; the empty all-simple group instead renders to `""`, which strict
parsing rejects. -/
theorem roundTrip_simple_nonempty (ops : ServerConfigOps D)
    (jw : JValue → String) (jr : String → Option JValue)
    (c : DnsOverHttpsConfig D) (hne : c.servers ≠ [])
    (hsimple : ∀ d ∈ c.servers, ops.isSimple d = true)
    (hround : ∀ d ∈ c.servers, ops.fromString (ops.serverTemplate d) = some d)
    (htne : ∀ d ∈ c.servers, (ops.serverTemplate d).data ≠ [])
    (htws : ∀ d ∈ c.servers, ∀ ch ∈ (ops.serverTemplate d).data,
      isWhitespaceASCII ch = false)
    (hjr : FromJson ops jr (ToString ops jw c) = none) :
    FromString ops jr (ToString ops jw c) = some c := by
  have hall : c.servers.all ops.isSimple = true :=
    List.all_eq_true.mpr hsimple
  have hts : ToString ops jw c =
      JoinString (c.servers.map ops.serverTemplate) "\x0a" := by
    unfold ToString
    simp [hall]
  rw [hts] at hjr ⊢
  rw [fromString_eq_templates_of_json_fallthrough (Or.inl hjr)]
  have hsp : SplitGroup (JoinString (c.servers.map ops.serverTemplate) "\x0a")
      = c.servers.map ops.serverTemplate := by
    refine splitGroup_joinString (by simpa using hne) ?_ ?_
    · intro t ht
      rcases List.mem_map.mp ht with ⟨d, hd, rfl⟩
      exact htne d hd
    · intro t ht
      rcases List.mem_map.mp ht with ⟨d, hd, rfl⟩
      exact htws d hd
  unfold FromStringTemplates
  rw [hsp]
  have hemp : (c.servers.map ops.serverTemplate).isEmpty = false := by
    simp [hne]
  simp only [hemp, Bool.false_eq_true, if_false]
  unfold FromTemplates ParseTemplates
  rw [List.map_map]
  have hmap : List.map (ops.fromString ∘ ops.serverTemplate) c.servers =
      List.map some c.servers :=
    List.map_congr_left (fun d hd => hround d hd)
  rw [hmap, collectServers_map_some]
  rfl

/-- Model two-entry all-simple group used to witness the amended
round-trip. -/
def cTwoSimple : DnsOverHttpsConfig SpecServerConfig :=
  ⟨[⟨"https://a/q", false⟩, ⟨"https://b/q", false⟩]⟩

theorem roundTrip_simple_nonempty_witness :
    FromString specOps jrAlwaysNone
      (ToString specOps jwConstJ cTwoSimple) = some cTwoSimple :=
  roundTrip_simple_nonempty specOps jwConstJ jrAlwaysNone cTwoSimple
    (by decide) (by decide) (by decide) (by decide) (by decide) rfl

end DoH
